import Mathlib

/-!
# Verification of the persistent-context manager (`src/context-manager.ts`)

Shallow embedding of the filesystem-facing operations of the
`PersistentContextManager` class: `copyContext` / `copyDirectory`,
`getContextSize` / `getDirectorySize`, `formatBytes`, plus a small state
machine for the browser-lifecycle methods `initialize`, `cleanup` and
`createBaseContext`.

The filesystem is modelled as a finite tree of named entries.  Besides
ordinary files and directories the model has two "broken" node shapes that
stand for the I/O failures the TypeScript code can observe during a
traversal: `brokenDir` is a directory on which `fs.readdir` rejects
(unreadable / permission error), `brokenFile` is an entry on which `fs.stat`
or `fs.copyFile` rejects.  Node.js `readdir` never reports two entries with
the same name, so well-formed source trees carry a `NoDup` condition on the
names of each directory.
-/

/-- A node of the on-disk tree.  File content is its byte list. -/
inductive FSNode where
  | file (content : List Nat)
  | brokenFile
  | dir (entries : List (String × FSNode))
  | brokenDir

/-- Names of the entries of a directory listing. -/
def namesOf (es : List (String × FSNode)) : List String :=
  es.map Prod.fst

/-- Resolve one path component in a directory listing (`readdir` yields
unique names, so first match is the entry). -/
def lookupEntry : List (String × FSNode) → String → Option FSNode
  | [], _ => none
  | (n, v) :: rest, k => if n = k then some v else lookupEntry rest k

/-- Write an entry at a name: overwrite the existing binding, or append a
new one.  This is how a single `copyFile`/`mkdir` at `target/name` acts on
the target listing. -/
def setEntry : List (String × FSNode) → String → FSNode → List (String × FSNode)
  | [], k, v => [(k, v)]
  | (n, w) :: rest, k, v =>
    if n = k then (k, v) :: rest else (n, w) :: setEntry rest k v

/-- Resolve a relative path (list of components) inside a node. -/
def lookupPath (n : FSNode) : List String → Option FSNode
  | [] => some n
  | p :: rest =>
    match n with
    | .dir es =>
      match lookupEntry es p with
      | some c => lookupPath c rest
      | none => none
    | _ => none

/-- The `for` loop of `getDirectorySize`, entries processed in order.
`size` is accumulated across iterations; an `fs.stat` rejection
(`brokenFile`) escapes to the enclosing `catch`, so the remaining entries of
this listing are skipped and the partial sum is returned.  A recursive call
on a subdirectory has its own `try`/`catch` and therefore never aborts the
parent loop: an unreadable subdirectory (`brokenDir`) just contributes 0. -/
def sizeLoop : List (String × FSNode) → Nat
  | [] => 0
  | (_, .file c) :: rest => c.length + sizeLoop rest
  | (_, .brokenFile) :: _ => 0
  | (_, .dir es) :: rest => sizeLoop es + sizeLoop rest
  | (_, .brokenDir) :: rest => 0 + sizeLoop rest

/-- The method `getDirectorySize(path)`: `none` is a path that does not exist
(`readdir` rejects with `ENOENT`, caught, yielding the initial `size = 0`);
a file or unreadable directory likewise makes `readdir` reject.  The
function never throws: every error is swallowed by its `catch`. -/
def getDirectorySize : Option FSNode → Nat
  | some (.dir es) => sizeLoop es
  | _ => 0

/-- The method `getContextSize(contextPath)`: delegates to `getDirectorySize` with a
further (dead, since `getDirectorySize` already catches everything)
`try`/`catch` returning 0. -/
def getContextSize (p : Option FSNode) : Nat :=
  getDirectorySize p

/-- Well-formed directory listing: only regular files and readable
subdirectories, with pairwise-distinct entry names (what `readdir` can
actually produce for a tree of regular files and subdirectories). -/
def wfEntries : List (String × FSNode) → Bool
  | [] => true
  | (n, .file _) :: rest => decide (n ∉ namesOf rest) && wfEntries rest
  | (n, .dir es) :: rest => decide (n ∉ namesOf rest) && wfEntries es && wfEntries rest
  | (_, .brokenFile) :: _ => false
  | (_, .brokenDir) :: _ => false

/-- The `for` loop of `copyDirectory(source, target)`: visit the source
entries in order and write each into the target listing.  Returns the
resulting target listing together with a success flag; on failure the
listing reflects what was copied before the exception (no rollback), and
the exception propagates (there is no `try`/`catch` in `copyDirectory`).

* file entry: `fs.copyFile` overwrites `target/name`; it rejects if
  `target/name` is an existing directory (`EISDIR`) or the source file is
  unreadable;
* directory entry: `ensureDirectory(target/name)` creates an empty
  directory only when the name is absent (`fs.access` succeeding suppresses
  the `mkdir`), then the subtree is copied recursively into whatever sits
  at `target/name`; if that is not a directory the nested copies reject
  (`ENOTDIR`) unless the source subtree is empty, in which case the nested
  loop body never runs;
* unreadable source subdirectory: the recursive `readdir` rejects and the
  error propagates. -/
def copyDirEntries : List (String × FSNode) → List (String × FSNode) →
    List (String × FSNode) × Bool
  | [], tgt => (tgt, true)
  | (n, .file c) :: rest, tgt =>
    match lookupEntry tgt n with
    | some (.dir _) => (tgt, false)
    | some .brokenDir => (tgt, false)
    | _ => copyDirEntries rest (setEntry tgt n (.file c))
  | (_, .brokenFile) :: _, tgt => (tgt, false)
  | (n, .dir es) :: rest, tgt =>
    let tgt1 := if (lookupEntry tgt n).isSome then tgt else setEntry tgt n (.dir [])
    match lookupEntry tgt1 n with
    | some (.dir sub) =>
      let r := copyDirEntries es sub
      let tgt2 := setEntry tgt1 n (.dir r.1)
      if r.2 then copyDirEntries rest tgt2 else (tgt2, false)
    | _ => if es.isEmpty then copyDirEntries rest tgt1 else (tgt1, false)
  | (_, .brokenDir) :: _, tgt => (tgt, false)

/-- The method `copyContext(sourceContextPath, targetContextPath)`.  Whatever the prior
state of the target path, it is first removed (`fs.rm` recursive + force,
tolerant of an absent target) and re-created empty by `ensureDirectory`;
only then does `copyDirectory` run.  Returns the final state of the target
path together with the success flag; when the source path does not exist or
is not a readable directory, the initial `readdir` of `copyDirectory`
rejects and the error propagates, leaving the freshly created empty target
behind. -/
def copyContext (src : Option FSNode) (_prior : Option FSNode) :
    Option FSNode × Bool :=
  match src with
  | some (.dir es) =>
    let r := copyDirEntries es []
    (some (.dir r.1), r.2)
  | _ => (some (.dir []), false)

/-! ## `formatBytes` -/

/-- The unit list `['Bytes', 'KB', 'MB', 'GB']`. -/
def sizes : List String := ["Bytes", "KB", "MB", "GB"]

/-- JS `sizes[i]`: indexing past the end of the array yields `undefined`,
which string concatenation renders as the text `"undefined"`. -/
def unitFor (i : Nat) : String :=
  (sizes.get? i).getD "undefined"

/-- The expression `(bytes / Math.pow(1024, i)).toFixed(2)` as an integer count of
hundredths: round to nearest, ties upward (the `toFixed` rule for a
positive argument), computed exactly. -/
def toFixedHundredths (bytes p : Nat) : Nat :=
  (200 * bytes + p) / (2 * p)

/-- The call `parseFloat('<n/100 to two decimals>')` followed by JS
number-to-string conversion: the shortest decimal form, i.e. the two-place
decimal with trailing fractional zeros (and a bare trailing dot) dropped. -/
def renderHundredths (n : Nat) : String :=
  if n % 100 = 0 then toString (n / 100)
  else if n % 10 = 0 then toString (n / 100) ++ "." ++ toString (n / 10 % 10)
  else toString (n / 100) ++ "." ++ toString (n % 100 / 10) ++ toString (n % 10)

/-- The method `formatBytes(bytes)` on a non-negative integer byte count.
`i = Math.floor(Math.log(bytes) / Math.log(1024))` is the floor of the real
base-1024 logarithm of `bytes`, i.e. `Nat.log 1024 bytes` (the transcendental
functions are modelled exactly); the scaled value is formatted with
`toFixed(2)` and then passed through `parseFloat`, whose string rendering
drops trailing fractional zeros. -/
def formatBytes (bytes : Nat) : String :=
  if bytes = 0 then "0 Bytes"
  else
    let i := Nat.log 1024 bytes
    renderHundredths (toFixedHundredths bytes (1024 ^ i)) ++ " " ++ unitFor i

/-! ## Browser lifecycle state machine

`chromium.launch` / `chromium.launchPersistentContext` are opaque external
calls; the model tracks which launched browsers and persistent contexts are
currently open, identified by a fresh-id counter, together with the
`this.browser` field of the manager. -/

structure MgrState where
  /-- The `this.browser` field (`null` modelled as `none`). -/
  browser : Option Nat
  /-- Ids of browsers launched by `chromium.launch` and not yet closed. -/
  openBrowsers : List Nat
  /-- Ids of persistent contexts launched and not yet closed. -/
  openContexts : List Nat
  /-- Fresh-id supply for newly launched browsers/contexts. -/
  nextId : Nat
  deriving Repr, DecidableEq

/-- The `initialize()` method: launches a browser and assigns it to
`this.browser`, overwriting whatever the field held before. -/
def initDriver (s : MgrState) : MgrState :=
  { s with
    browser := some s.nextId
    openBrowsers := s.openBrowsers ++ [s.nextId]
    nextId := s.nextId + 1 }

/-- The method `cleanup()`: closes `this.browser` if present and nulls the field. -/
def cleanup (s : MgrState) : MgrState :=
  match s.browser with
  | some b => { s with browser := none, openBrowsers := s.openBrowsers.erase b }
  | none => s

/-- The method `createBaseContext(contextPath, url)`.  After `ensureDirectory`, the
current browser (if any) is closed; a persistent context is launched; the
`try` block navigates and waits for assets (`bodyFails` says whether it
throws — the inner `waitForResponse` timeout is already swallowed by its own
`catch`, so only the navigation can throw); the `finally` block always
closes the persistent context and launches a fresh non-persistent browser
into `this.browser`.  An error from the body is re-raised after the
`finally` block runs. -/
def createBaseContext (s : MgrState) (bodyFails : Bool) :
    Except Unit Unit × MgrState :=
  let s1 := match s.browser with
    | some b => { s with openBrowsers := s.openBrowsers.erase b }
    | none => s
  let ctx := s1.nextId
  let s2 := { s1 with openContexts := s1.openContexts ++ [ctx], nextId := s1.nextId + 1 }
  let s3 := { s2 with openContexts := s2.openContexts.erase ctx }
  let s4 := { s3 with
    browser := some s3.nextId
    openBrowsers := s3.openBrowsers ++ [s3.nextId]
    nextId := s3.nextId + 1 }
  (if bodyFails then .error () else .ok (), s4)

/-! ## Helper lemmas about listings -/

theorem namesOf_append (l₁ l₂ : List (String × FSNode)) :
    namesOf (l₁ ++ l₂) = namesOf l₁ ++ namesOf l₂ := by
  simp [namesOf]

theorem lookupEntry_eq_none_of_not_mem {l : List (String × FSNode)} {n : String}
    (h : n ∉ namesOf l) : lookupEntry l n = none := by
  induction l with
  | nil => rfl
  | cons hd tl ih =>
    obtain ⟨m, v⟩ := hd
    simp only [namesOf, List.map_cons, List.mem_cons, not_or] at h
    have hne : ¬ m = n := fun hmn => h.1 hmn.symm
    simp only [lookupEntry, if_neg hne]
    exact ih (by simpa [namesOf] using h.2)

theorem setEntry_eq_append_of_not_mem {l : List (String × FSNode)} {n : String}
    (v : FSNode) (h : n ∉ namesOf l) : setEntry l n v = l ++ [(n, v)] := by
  induction l with
  | nil => rfl
  | cons hd tl ih =>
    obtain ⟨m, w⟩ := hd
    simp only [namesOf, List.map_cons, List.mem_cons, not_or] at h
    have hne : ¬ m = n := fun hmn => h.1 hmn.symm
    simp only [setEntry, if_neg hne, List.cons_append, List.cons.injEq, true_and]
    exact ih (by simpa [namesOf] using h.2)

theorem lookupEntry_append_right {l : List (String × FSNode)} {n : String}
    (v : FSNode) (h : n ∉ namesOf l) :
    lookupEntry (l ++ [(n, v)]) n = some v := by
  induction l with
  | nil => simp [lookupEntry]
  | cons hd tl ih =>
    obtain ⟨m, w⟩ := hd
    simp only [namesOf, List.map_cons, List.mem_cons, not_or] at h
    have hne : ¬ m = n := fun hmn => h.1 hmn.symm
    simp only [List.cons_append, lookupEntry, if_neg hne]
    exact ih (by simpa [namesOf] using h.2)

theorem setEntry_append_last {l : List (String × FSNode)} {n : String}
    (v w : FSNode) (h : n ∉ namesOf l) :
    setEntry (l ++ [(n, v)]) n w = l ++ [(n, w)] := by
  induction l with
  | nil => simp [setEntry]
  | cons hd tl ih =>
    obtain ⟨m, u⟩ := hd
    simp only [namesOf, List.map_cons, List.mem_cons, not_or] at h
    have hne : ¬ m = n := fun hmn => h.1 hmn.symm
    simp only [List.cons_append, setEntry, if_neg hne, List.cons.injEq, true_and]
    exact ih (by simpa [namesOf] using h.2)

/-- Copying a well-formed source listing into a target listing whose names
are disjoint from the source's succeeds and appends an exact duplicate of
the source. -/
theorem copyDirEntries_fresh : ∀ (es tgt : List (String × FSNode)),
    wfEntries es = true →
    (∀ n ∈ namesOf es, n ∉ namesOf tgt) →
    copyDirEntries es tgt = (tgt ++ es, true)
  | [], tgt, _, _ => by simp [copyDirEntries]
  | (n, .file c) :: rest, tgt, hwf, hdisj => by
    simp only [wfEntries, Bool.and_eq_true, decide_eq_true_eq] at hwf
    obtain ⟨hn, hrest⟩ := hwf
    have htgt : n ∉ namesOf tgt := hdisj n (by simp [namesOf])
    have hl : lookupEntry tgt n = none := lookupEntry_eq_none_of_not_mem htgt
    have hset : setEntry tgt n (FSNode.file c) = tgt ++ [(n, FSNode.file c)] :=
      setEntry_eq_append_of_not_mem _ htgt
    have hdisj' : ∀ m ∈ namesOf rest, m ∉ namesOf (tgt ++ [(n, FSNode.file c)]) := by
      intro m hm
      rw [namesOf_append]
      simp only [List.mem_append, not_or]
      refine ⟨hdisj m (by simp [namesOf]; simp [namesOf] at hm; exact Or.inr hm), ?_⟩
      simp only [namesOf, List.map_cons, List.map_nil, List.mem_singleton]
      exact fun h => hn (h ▸ hm)
    have houter := copyDirEntries_fresh rest (tgt ++ [(n, FSNode.file c)]) hrest hdisj'
    simp [copyDirEntries, hl, hset, houter, List.append_assoc]
  | (_, .brokenFile) :: _, _, hwf, _ => by simp [wfEntries] at hwf
  | (n, .dir es') :: rest, tgt, hwf, hdisj => by
    simp only [wfEntries, Bool.and_eq_true, decide_eq_true_eq] at hwf
    obtain ⟨⟨hn, hes'⟩, hrest⟩ := hwf
    have htgt : n ∉ namesOf tgt := hdisj n (by simp [namesOf])
    have hl : lookupEntry tgt n = none := lookupEntry_eq_none_of_not_mem htgt
    have hset : setEntry tgt n (FSNode.dir []) = tgt ++ [(n, FSNode.dir [])] :=
      setEntry_eq_append_of_not_mem _ htgt
    have hl1 : lookupEntry (tgt ++ [(n, FSNode.dir [])]) n = some (FSNode.dir []) :=
      lookupEntry_append_right _ htgt
    have hinner := copyDirEntries_fresh es' [] hes' (by simp [namesOf])
    have hset2 : setEntry (tgt ++ [(n, FSNode.dir [])]) n (FSNode.dir es') =
        tgt ++ [(n, FSNode.dir es')] := setEntry_append_last _ _ htgt
    have hdisj' : ∀ m ∈ namesOf rest, m ∉ namesOf (tgt ++ [(n, FSNode.dir es')]) := by
      intro m hm
      rw [namesOf_append]
      simp only [List.mem_append, not_or]
      refine ⟨hdisj m (by simp [namesOf]; simp [namesOf] at hm; exact Or.inr hm), ?_⟩
      simp only [namesOf, List.map_cons, List.map_nil, List.mem_singleton]
      exact fun h => hn (h ▸ hm)
    have houter := copyDirEntries_fresh rest (tgt ++ [(n, FSNode.dir es')]) hrest hdisj'
    simp [copyDirEntries, hl, hset, hl1, hinner, hset2, houter, List.append_assoc]
  | (_, .brokenDir) :: _, _, hwf, _ => by simp [wfEntries] at hwf
termination_by es _ _ _ => sizeOf es

/-- On a well-formed source tree, `copyContext` succeeds and the final
target tree is an exact duplicate of the source, whatever the prior state
of the target path. -/
theorem copyContext_wf (es : List (String × FSNode)) (prior : Option FSNode)
    (h : wfEntries es = true) :
    copyContext (some (.dir es)) prior = (some (.dir es), true) := by
  simp [copyContext, copyDirEntries_fresh es [] h (by simp [namesOf])]

/-! ## `formatBytes` computations -/

theorem formatBytes_eq_of_ne_zero (b : Nat) (hb : b ≠ 0) :
    formatBytes b =
      renderHundredths (toFixedHundredths b (1024 ^ Nat.log 1024 b)) ++ " " ++
        unitFor (Nat.log 1024 b) := by
  simp [formatBytes, hb]

theorem log1024_1024 : Nat.log 1024 1024 = 1 :=
  Nat.log_eq_of_pow_le_of_lt_pow (by norm_num) (by norm_num)

theorem log1024_1536 : Nat.log 1024 1536 = 1 :=
  Nat.log_eq_of_pow_le_of_lt_pow (by norm_num) (by norm_num)

theorem log1024_GB : Nat.log 1024 1073741824 = 3 := by
  rw [show (1073741824 : Nat) = 1024 ^ 3 by norm_num, Nat.log_pow (by norm_num)]

theorem formatBytes_1024_eq : formatBytes 1024 = "1 KB" := by
  rw [formatBytes_eq_of_ne_zero _ (by norm_num), log1024_1024,
    show toFixedHundredths 1024 (1024 ^ 1) = 100 by norm_num [toFixedHundredths]]
  rfl

theorem formatBytes_1536_eq : formatBytes 1536 = "1.5 KB" := by
  rw [formatBytes_eq_of_ne_zero _ (by norm_num), log1024_1536,
    show toFixedHundredths 1536 (1024 ^ 1) = 150 by norm_num [toFixedHundredths]]
  rfl

theorem formatBytes_GB_eq : formatBytes 1073741824 = "1 GB" := by
  rw [formatBytes_eq_of_ne_zero _ (by norm_num), log1024_GB,
    show toFixedHundredths 1073741824 (1024 ^ 3) = 100 by norm_num [toFixedHundredths]]
  rfl

/-- C4 counterexample: the claimed value `formatBytes(1024) = "1.00 KB"` is
false — the `parseFloat` applied to the `toFixed(2)` string drops the
trailing fractional zeros, so the code produces `"1 KB"`. -/
theorem formatBytes_two_decimals_counterexample : formatBytes 1024 ≠ "1.00 KB" := by
  rw [formatBytes_1024_eq]
  decide

/-- C4 (amended): `formatBytes` maps 0 to `"0 Bytes"`; for a positive byte
count it selects the unit of index `⌊log₁₀₂₄ bytes⌋` — the largest unit whose
scaled value is at least 1 (`1024 ^ i ≤ bytes < 1024 ^ (i + 1)`) — and
renders the scaled value rounded to two decimals with trailing fractional
zeros stripped by the `parseFloat` round-trip: `formatBytes 1024 = "1 KB"`,
`formatBytes 1536 = "1.5 KB"`, `formatBytes 1073741824 = "1 GB"`. -/
theorem formatBytes_spec_values :
    formatBytes 0 = "0 Bytes" ∧
    formatBytes 1024 = "1 KB" ∧
    formatBytes 1536 = "1.5 KB" ∧
    formatBytes 1073741824 = "1 GB" ∧
    ∀ b : Nat, b ≠ 0 →
      1024 ^ Nat.log 1024 b ≤ b ∧ b < 1024 ^ (Nat.log 1024 b + 1) ∧
      formatBytes b =
        renderHundredths (toFixedHundredths b (1024 ^ Nat.log 1024 b)) ++ " " ++
          unitFor (Nat.log 1024 b) := by
  refine ⟨rfl, formatBytes_1024_eq, formatBytes_1536_eq, formatBytes_GB_eq, ?_⟩
  intro b hb
  exact ⟨Nat.pow_log_le_self 1024 hb, Nat.lt_pow_succ_log_self (by norm_num) b,
    formatBytes_eq_of_ne_zero b hb⟩

/-- C4 witness for the nested hypothesis: the general part of the amended
statement evaluated at 3 bytes. -/
theorem formatBytes_spec_values_witness :
    (3 : Nat) ≠ 0 ∧
    (1024 ^ Nat.log 1024 3 ≤ 3 ∧ 3 < 1024 ^ (Nat.log 1024 3 + 1) ∧
      formatBytes 3 =
        renderHundredths (toFixedHundredths 3 (1024 ^ Nat.log 1024 3)) ++ " " ++
          unitFor (Nat.log 1024 3)) :=
  ⟨by norm_num, formatBytes_spec_values.2.2.2.2 3 (by norm_num)⟩

/-- C9: for every byte count at least `1024 ^ 4` the computed unit index
`⌊log₁₀₂₄ bytes⌋` is at least 4, out of bounds for the four-element unit
list, so the JS lookup `sizes[i]` yields `undefined` and the formatted
string ends in `" undefined"`; conversely every positive byte count below
`1024 ^ 4` gets a valid unit. -/
theorem formatBytes_unit_overflow (b : Nat) (h : 1024 ^ 4 ≤ b) :
    4 ≤ Nat.log 1024 b ∧
    sizes.get? (Nat.log 1024 b) = none ∧
    unitFor (Nat.log 1024 b) = "undefined" ∧
    (∃ v, formatBytes b = v ++ " " ++ "undefined") ∧
    ∀ b' : Nat, b' ≠ 0 → b' < 1024 ^ 4 → (sizes.get? (Nat.log 1024 b')).isSome := by
  have hb0 : b ≠ 0 := by
    intro h0
    rw [h0] at h
    norm_num at h
  have h4 : 4 ≤ Nat.log 1024 b := (Nat.pow_le_iff_le_log (by norm_num) hb0).mp h
  have hnone : sizes.get? (Nat.log 1024 b) = none :=
    List.get?_eq_none.mpr (by simpa [sizes] using h4)
  have hunit : unitFor (Nat.log 1024 b) = "undefined" := by
    unfold unitFor
    rw [hnone]
    rfl
  refine ⟨h4, hnone, hunit,
    ⟨renderHundredths (toFixedHundredths b (1024 ^ Nat.log 1024 b)), ?_⟩, ?_⟩
  · rw [formatBytes_eq_of_ne_zero _ hb0, hunit]
  · intro b' hb' hlt
    have hlog : Nat.log 1024 b' < sizes.length := by
      simpa [sizes] using Nat.log_lt_of_lt_pow hb' hlt
    simp [List.getElem?_eq_getElem hlog]

/-- C9 witness at `1024 ^ 4` exactly. -/
theorem formatBytes_unit_overflow_witness :
    1024 ^ 4 ≤ 1024 ^ 4 ∧
    (4 ≤ Nat.log 1024 (1024 ^ 4) ∧
      sizes.get? (Nat.log 1024 (1024 ^ 4)) = none ∧
      unitFor (Nat.log 1024 (1024 ^ 4)) = "undefined" ∧
      (∃ v, formatBytes (1024 ^ 4) = v ++ " " ++ "undefined") ∧
      ∀ b' : Nat, b' ≠ 0 → b' < 1024 ^ 4 → (sizes.get? (Nat.log 1024 b')).isSome) :=
  ⟨le_refl _, formatBytes_unit_overflow (1024 ^ 4) (le_refl _)⟩

/-! ## Claims about `copyContext` and the size functions -/

/-- C1: for every source tree of regular files and subdirectories, a
successful `copyContext` leaves every regular file of the source at the
same relative path in the target with identical byte content (the final
target tree is an exact duplicate of the source). -/
theorem copyContext_preserves_files (es : List (String × FSNode))
    (prior : Option FSNode) (path : List String) (c : List Nat)
    (hwf : wfEntries es = true)
    (hfile : lookupPath (.dir es) path = some (.file c)) :
    ∃ t, copyContext (some (.dir es)) prior = (some t, true) ∧
      lookupPath t path = some (.file c) :=
  ⟨.dir es, copyContext_wf es prior hwf, hfile⟩

/-- C1 witness: a two-level tree with files `a` and `d/b`. -/
theorem copyContext_preserves_files_witness :
    wfEntries [("a", FSNode.file [7]), ("d", FSNode.dir [("b", FSNode.file [1, 2])])] = true ∧
    lookupPath (.dir [("a", FSNode.file [7]), ("d", FSNode.dir [("b", FSNode.file [1, 2])])])
      ["d", "b"] = some (.file [1, 2]) ∧
    ∃ t, copyContext
        (some (.dir [("a", FSNode.file [7]), ("d", FSNode.dir [("b", FSNode.file [1, 2])])]))
        none = (some t, true) ∧
      lookupPath t ["d", "b"] = some (.file [1, 2]) :=
  ⟨by simp [wfEntries, namesOf], by simp [lookupPath, lookupEntry],
    copyContext_preserves_files _ none _ _ (by simp [wfEntries, namesOf])
      (by simp [lookupPath, lookupEntry])⟩

/-- C2: copying preserves the total byte count as measured by
`getContextSize` on source and target. -/
theorem copyContext_preserves_size (es : List (String × FSNode))
    (prior : Option FSNode) (hwf : wfEntries es = true) :
    ∃ t, copyContext (some (.dir es)) prior = (some t, true) ∧
      getContextSize (some t) = getContextSize (some (.dir es)) :=
  ⟨.dir es, copyContext_wf es prior hwf, rfl⟩

/-- C2 witness. -/
theorem copyContext_preserves_size_witness :
    wfEntries [("a", FSNode.file [7]), ("d", FSNode.dir [("b", FSNode.file [1, 2])])] = true ∧
    ∃ t, copyContext
        (some (.dir [("a", FSNode.file [7]), ("d", FSNode.dir [("b", FSNode.file [1, 2])])]))
        none = (some t, true) ∧
      getContextSize (some t) =
        getContextSize
          (some (.dir [("a", FSNode.file [7]), ("d", FSNode.dir [("b", FSNode.file [1, 2])])])) :=
  ⟨by simp [wfEntries, namesOf],
    copyContext_preserves_size _ none (by simp [wfEntries, namesOf])⟩

/-- The result of `copyContext` does not depend on the prior state of the
target path: the target is recursively removed and recreated before the
copy, never merged into. -/
theorem copyContext_prior_irrelevant (src p q : Option FSNode) :
    copyContext src p = copyContext src q := rfl

/-- C3: `copyContext` is idempotent in its side effect — after a run that
produced target state `t`, running it again with the same arguments (the
target now holding `t`) produces `t` again, and indeed any prior target
state whatsoever (stale content or absent target) leads to the same final
tree, because the target is fully removed and recreated rather than merged
into. -/
theorem copyContext_idempotent (src prior stale t : Option FSNode)
    (h : copyContext src prior = (t, true)) :
    copyContext src t = (t, true) ∧ copyContext src stale = (t, true) :=
  ⟨copyContext_prior_irrelevant src t prior ▸ h,
    copyContext_prior_irrelevant src stale prior ▸ h⟩

/-- C3 witness: a one-file source, first run from an absent target, second
run from the produced target; a stale target with other content gives the
same result. -/
theorem copyContext_idempotent_witness :
    copyContext (some (.dir [("a", FSNode.file [5])])) none =
      (some (.dir [("a", FSNode.file [5])]), true) ∧
    copyContext (some (.dir [("a", FSNode.file [5])]))
        (some (.dir [("a", FSNode.file [5])])) =
      (some (.dir [("a", FSNode.file [5])]), true) ∧
    copyContext (some (.dir [("a", FSNode.file [5])]))
        (some (.dir [("old", FSNode.file [9, 9])])) =
      (some (.dir [("a", FSNode.file [5])]), true) := by
  have h : copyContext (some (.dir [("a", FSNode.file [5])])) none =
      (some (.dir [("a", FSNode.file [5])]), true) :=
    copyContext_wf _ none (by simp [wfEntries, namesOf])
  have h2 := copyContext_idempotent (some (.dir [("a", FSNode.file [5])])) none
    (some (.dir [("old", FSNode.file [9, 9])])) _ h
  exact ⟨h, h2.1, h2.2⟩

/-- C10: calling `copyContext` with a nonexistent source raises an error,
but only after the pre-existing target (whatever it held) has been
recursively removed and recreated empty: the final state is an empty target
directory and a propagated error, for every prior target state. -/
theorem copyContext_missing_source (prior : Option FSNode) :
    copyContext none prior = (some (.dir []), false) := rfl

/-- C5 counterexample: the claim says `getContextSize` returns 0 whenever
*any* traversal error occurs during the recursive measurement, but a
traversal error below the root (an unreadable subdirectory `x` next to a
3-byte file `a`) yields the partial sum 3, not 0. -/
theorem getContextSize_error_counterexample :
    getContextSize (some (.dir [("a", FSNode.file [1, 2, 3]), ("x", FSNode.brokenDir)])) = 3 ∧
    (3 : Nat) ≠ 0 := by
  constructor
  · simp [getContextSize, getDirectorySize, sizeLoop]
  · norm_num

/-- C5 (amended): `getContextSize` returns 0, without raising an error,
whenever the path does not exist or the root listing itself cannot be read
(nonexistent path, plain file, unreadable root directory); traversal errors
deeper in the recursion are likewise swallowed rather than propagated, but
they yield the partial sum accumulated elsewhere, not necessarily 0. -/
theorem getContextSize_swallows_errors (c : List Nat) :
    getContextSize none = 0 ∧
    getContextSize (some FSNode.brokenDir) = 0 ∧
    getContextSize (some (FSNode.file c)) = 0 ∧
    getContextSize (some FSNode.brokenFile) = 0 :=
  ⟨rfl, rfl, rfl, rfl⟩

/-- C8: `getDirectorySize` never throws and totals what it can reach: an
unreadable subdirectory contributes 0 while its siblings — before and after
it — are still counted, so on a traversal error the result is the partial
sum of the accessible files (a non-zero result does not mean the whole tree
was measured).  The hypothesis excludes `stat` failures among the preceding
sibling entries, which would abort that level's loop early. -/
theorem getDirectorySize_partial_sum (nm : String)
    (pre post : List (String × FSNode))
    (hpre : FSNode.brokenFile ∉ pre.map Prod.snd) :
    getDirectorySize (some (.dir (pre ++ (nm, FSNode.brokenDir) :: post))) =
      getDirectorySize (some (.dir pre)) + getDirectorySize (some (.dir post)) := by
  induction pre with
  | nil => simp [getDirectorySize, sizeLoop]
  | cons hd tl ih =>
    obtain ⟨m, node⟩ := hd
    simp only [List.map_cons, List.mem_cons, not_or] at hpre
    obtain ⟨hhd, htl⟩ := hpre
    have ih' := ih htl
    simp only [getDirectorySize, List.cons_append] at ih' ⊢
    cases node with
    | file c => simp [sizeLoop] at ih' ⊢; omega
    | brokenFile => exact absurd rfl (fun h => hhd h.symm)
    | dir es => simp [sizeLoop] at ih' ⊢; omega
    | brokenDir => simp [sizeLoop] at ih' ⊢; omega

/-- C8 witness: a 3-byte file before the unreadable subdirectory and a
1-byte file after it; the measured size is 4, not 0. -/
theorem getDirectorySize_partial_sum_witness :
    FSNode.brokenFile ∉ [("a", FSNode.file [1, 2, 3])].map Prod.snd ∧
    getDirectorySize (some (.dir ([("a", FSNode.file [1, 2, 3])] ++
        ("x", FSNode.brokenDir) :: [("b", FSNode.file [4])]))) =
      getDirectorySize (some (.dir [("a", FSNode.file [1, 2, 3])])) +
        getDirectorySize (some (.dir [("b", FSNode.file [4])])) :=
  ⟨by simp, getDirectorySize_partial_sum "x" _ _ (by simp)⟩

/-! ## Claims about the browser lifecycle -/

/-- C6 counterexample: from a fresh manager, `initialize` then `initialize`
again.  The claim says the second call closes the prior browser (id 0)
before launching the new one, so 0 would no longer be open; in fact the
code only overwrites `this.browser`, so browser 0 is still open while the
field now references browser 1 — a duplicate instance left unreferenced and
unclosed. -/
theorem initDriver_leak_counterexample :
    (initDriver ⟨none, [], [], 0⟩).browser = some 0 ∧
    0 ∈ (initDriver (initDriver ⟨none, [], [], 0⟩)).openBrowsers ∧
    (initDriver (initDriver ⟨none, [], [], 0⟩)).browser = some 1 := by
  refine ⟨rfl, ?_, rfl⟩
  simp [initDriver]

/-- C6 (amended): calling `initialize` while a browser is already
initialized does not close the prior instance: it launches a new browser
and overwrites `this.browser` with it, so every previously open browser —
including the one the field referenced — remains open and the prior one
becomes unreferenced (a resource leak, the opposite of what the spec
recommends). -/
theorem initDriver_overwrites_without_closing (s : MgrState) :
    (initDriver s).openBrowsers = s.openBrowsers ++ [s.nextId] ∧
    (initDriver s).browser = some s.nextId ∧
    ∀ b, s.browser = some b → b ∈ s.openBrowsers →
      b ∈ (initDriver s).openBrowsers := by
  refine ⟨rfl, rfl, ?_⟩
  intro b _ hb
  simp [initDriver, hb]

/-- C6 amended-claim witness: the nested hypothesis discharged on the
double-`initialize` run from a fresh manager. -/
theorem initDriver_overwrites_without_closing_witness :
    (initDriver ⟨none, [], [], 0⟩).browser = some 0 ∧
    0 ∈ (initDriver ⟨none, [], [], 0⟩).openBrowsers ∧
    0 ∈ (initDriver (initDriver ⟨none, [], [], 0⟩)).openBrowsers :=
  ⟨rfl, by simp [initDriver],
    (initDriver_overwrites_without_closing (initDriver ⟨none, [], [], 0⟩)).2.2 0 rfl
      (by simp [initDriver])⟩

/-- C7: whatever the prior state and whether or not the navigation body
throws, `createBaseContext` closes the persistent context it opened at the
start (the `finally` block) and then launches a fresh non-persistent
browser into `this.browser`; the body's error, if any, is re-raised only
after that.  The hypothesis says the fresh context id is not already listed
as open (fresh ids are new). -/
theorem createBaseContext_closes_and_restores (s : MgrState) (bodyFails : Bool)
    (h : s.nextId ∉ s.openContexts) :
    (createBaseContext s bodyFails).2.openContexts = s.openContexts ∧
    s.nextId ∉ (createBaseContext s bodyFails).2.openContexts ∧
    (createBaseContext s bodyFails).2.browser = some (s.nextId + 1) ∧
    (s.nextId + 1) ∈ (createBaseContext s bodyFails).2.openBrowsers ∧
    (createBaseContext s bodyFails).1 =
      (if bodyFails then Except.error () else Except.ok ()) := by
  have herase : (s.openContexts ++ [s.nextId]).erase s.nextId = s.openContexts := by
    rw [List.erase_append_right _ h]
    simp
  cases hb : s.browser <;>
    simp [createBaseContext, hb, herase, h]

/-- C7 witness: a fresh manager with one open browser, body failing. -/
theorem createBaseContext_closes_and_restores_witness :
    (0 : Nat) ∉ ([] : List Nat) ∧
    ((createBaseContext ⟨none, [], [], 0⟩ true).2.openContexts = [] ∧
      (0 : Nat) ∉ (createBaseContext ⟨none, [], [], 0⟩ true).2.openContexts ∧
      (createBaseContext ⟨none, [], [], 0⟩ true).2.browser = some 1 ∧
      (1 : Nat) ∈ (createBaseContext ⟨none, [], [], 0⟩ true).2.openBrowsers ∧
      (createBaseContext ⟨none, [], [], 0⟩ true).1 =
        (if true then Except.error () else Except.ok ())) :=
  ⟨by simp, createBaseContext_closes_and_restores ⟨none, [], [], 0⟩ true (by simp)⟩
